import Mathlib

/-!
Verification of the repochecker composite risk scoring engine.

Shallow embedding, in Lean 4, of the scoring logic of the audit scripts
(`nuget-audit.py`, `C#-audit.py`, `conda_forge_audit.py`, `pypi_audit.py`,
`sbom_supply_chain_risk.py.py`).  Python floats are modelled as rationals
(`ℚ`); Python's dynamically-typed JSON values are modelled by the inductive
type `PyVal`; Python code that can raise an exception is modelled in the
`Except PyErr` monad, with `try/except` blocks made explicit at the exact
places the source has them.
-/

namespace Repochecker

/-- A Python/JSON value as the audit scripts receive it from external APIs. -/
inductive PyVal where
  | none : PyVal
  | bool : Bool → PyVal
  | num : ℚ → PyVal
  | str : String → PyVal
  | list : List PyVal → PyVal
  | dict : List (String × PyVal) → PyVal

/-- The Python exceptions the embedded code can raise. -/
inductive PyErr where
  | typeError : PyErr
  | attributeError : PyErr
  | valueError : PyErr
deriving DecidableEq

/-- Python truthiness: `None`, `False`, `0`, `""`, `[]`, `{}` are falsy. -/
def PyVal.truthy : PyVal → Bool
  | .none => false
  | .bool b => b
  | .num q => q ≠ 0
  | .str s => s ≠ ""
  | .list xs => !xs.isEmpty
  | .dict kvs => !kvs.isEmpty

/-- `d.get(k)` on a Python dict: the stored value, or `None` when absent. -/
def dget (kvs : List (String × PyVal)) (k : String) : PyVal :=
  match kvs.lookup k with
  | Option.some v => v
  | Option.none => PyVal.none

/-- `v.get(k)` on an arbitrary value: only dicts have `.get`, every other
value raises `AttributeError`. -/
def pyGet (v : PyVal) (k : String) : Except PyErr PyVal :=
  match v with
  | .dict kvs => .ok (dget kvs k)
  | _ => .error .attributeError

/-- `for x in v`: lists yield their elements, strings their characters,
dicts their keys; `None`, booleans and numbers raise `TypeError`. -/
def pyIter : PyVal → Except PyErr (List PyVal)
  | .list xs => .ok xs
  | .str s => .ok (s.toList.map (fun c => PyVal.str c.toString))
  | .dict kvs => .ok (kvs.map (fun p => PyVal.str p.1))
  | _ => .error .typeError

/-- Numeric-string parser backing the `float(...)` builtin: optional
whitespace and sign, then digits with an optional fractional part.
(Exponent forms are omitted; every call site in the embedded code wraps
`float` in `try/except`, so the parser's domain only shifts which strings
are treated as non-numeric.) -/
def parseFloatQ (s : String) : Option ℚ :=
  let cs := (s.toList.dropWhile Char.isWhitespace).reverse.dropWhile Char.isWhitespace |>.reverse
  let (sign, cs) :=
    match cs with
    | '-' :: rest => ((-1 : ℚ), rest)
    | '+' :: rest => ((1 : ℚ), rest)
    | _ => ((1 : ℚ), cs)
  let intPart := cs.takeWhile Char.isDigit
  let rest := cs.dropWhile Char.isDigit
  let (fracPart, rest2) :=
    match rest with
    | '.' :: r => (r.takeWhile Char.isDigit, r.dropWhile Char.isDigit)
    | _ => ([], rest)
  if rest2 ≠ [] then Option.none
  else if intPart = [] ∧ fracPart = [] then Option.none
  else
    let iv : ℚ := intPart.foldl (fun acc c => acc * 10 + (c.toNat - '0'.toNat : ℕ)) 0
    let fv : ℚ := fracPart.foldl (fun acc c => acc * 10 + (c.toNat - '0'.toNat : ℕ)) 0
    Option.some (sign * (iv + fv / (10 : ℚ) ^ fracPart.length))

/-- The `float(...)` builtin: numbers pass through, booleans become 0/1,
numeric strings parse, everything else raises. -/
def pyFloat : PyVal → Except PyErr ℚ
  | .num q => .ok q
  | .bool b => .ok (if b then 1 else 0)
  | .str s =>
    match parseFloatQ s with
    | Option.some q => .ok q
    | Option.none => .error .valueError
  | _ => .error .typeError

/-- `x.upper()`: only strings have `.upper`. -/
def pyUpper : PyVal → Except PyErr PyVal
  | .str s => .ok (.str s.toUpper)
  | _ => .error .attributeError

/-! ### Severity normalizer (`_max_cvss` / `_sev_label`, nuget-audit.py lines
154-183; C#-audit.py lines 93-122 is textually identical). -/

/-- One iteration of the loop body of `_max_cvss`, which the source wraps in
`try: ... except Exception: pass`: read `s.get("type")`, default falsy values
to `""`, upper-case, and when the type is a CVSS-family tag convert
`s.get("score")` with `float`.  Any exception is swallowed (no score kept). -/
def sevEntryScore (s : PyVal) : Option ℚ :=
  match pyGet s "type" with
  | .error _ => Option.none
  | .ok t =>
    let t := if t.truthy then t else PyVal.str ""
    match pyUpper t with
    | .error _ => Option.none
    | .ok u =>
      match u with
      | .str name =>
        if name = "CVSS_V3" ∨ name = "CVSS_V3.1" ∨ name = "CVSS_V4" then
          match pyGet s "score" with
          | .error _ => Option.none
          | .ok sc =>
            match pyFloat sc with
            | .ok q => Option.some q
            | .error _ => Option.none
        else Option.none
      | _ => Option.none

/-- The `database_specific` fallback block of `_max_cvss`, wrapped in the
source by `try/except: pass`: `ds = v.get("database_specific") or {}`,
`score = ds.get("severity") or ds.get("cvss") or None`, kept only when it is
an `int`/`float` (booleans are `int`s in Python). -/
def fallbackScores (v : List (String × PyVal)) : List ℚ :=
  let dsRaw := dget v "database_specific"
  let ds := if dsRaw.truthy then dsRaw else PyVal.dict []
  match ds with
  | .dict kvs =>
    let s1 := dget kvs "severity"
    let score :=
      if s1.truthy then s1
      else
        let s2 := dget kvs "cvss"
        if s2.truthy then s2 else PyVal.none
    match score with
    | .num q => [q]
    | .bool b => [if b then (1 : ℚ) else 0]
    | _ => []
  | _ => []

/-- `_max_cvss(v)`: iterate `v.get("severity") or []` collecting CVSS-family
scores, fall back to `database_specific` when none were found, and return the
maximum (or `None`).  Iterating a truthy non-iterable `severity` value raises
`TypeError` outside every `try` block, which the `Except` layer records. -/
def max_cvss (v : List (String × PyVal)) : Except PyErr (Option ℚ) :=
  let sevRaw := dget v "severity"
  let it := if sevRaw.truthy then sevRaw else PyVal.list []
  match pyIter it with
  | .error e => .error e
  | .ok elems =>
    let scores := elems.filterMap sevEntryScore
    let scores := if scores.isEmpty then fallbackScores v else scores
    .ok (match scores with
         | [] => Option.none
         | h :: t => Option.some (t.foldl max h))

/-- The numeric-score-to-label band mapping at the tail of `_sev_label`. -/
def bandLabel (sc : ℚ) : String :=
  if 9 ≤ sc then "CRITICAL"
  else if 7 ≤ sc then "HIGH"
  else if 4 ≤ sc then "MEDIUM"
  else "LOW"

/-- `_sev_label(v)`: the banded label of `_max_cvss(v)` when a numeric score
exists; otherwise `(v.get("database_specific") or {}).get("severity") or
"UNKNOWN"` (an uncaught `AttributeError` when `database_specific` is a truthy
non-dict). -/
def sev_label (v : List (String × PyVal)) : Except PyErr PyVal :=
  match max_cvss v with
  | .error e => .error e
  | .ok Option.none =>
    let dsRaw := dget v "database_specific"
    let ds := if dsRaw.truthy then dsRaw else PyVal.dict []
    match pyGet ds "severity" with
    | .error e => .error e
    | .ok lbl => .ok (if lbl.truthy then lbl else PyVal.str "UNKNOWN")
  | .ok (Option.some sc) => .ok (PyVal.str (bandLabel sc))

/-- Ordinal rank of the severity labels, for stating monotonicity. -/
def labelRank : String → ℕ
  | "CRITICAL" => 4
  | "HIGH" => 3
  | "MEDIUM" => 2
  | "LOW" => 1
  | _ => 0

/-! ### Vulnerability-penalty dimension (nuget-audit.py `compute_risk` lines
361-374; C#-audit.py lines 274-288 is identical).  The findings enter as the
list of per-vulnerability `_max_cvss` values (`v.get("_max_cvss") or 0`
replaces `None` — and `0.0` — by `0`). -/

/-- `max([v.get("_max_cvss") or 0 for v in vulns], default=0)`. -/
def worstCvss (findings : List (Option ℚ)) : ℚ :=
  (findings.map (fun o => o.getD 0)).foldl max 0

/-- The `vulnerabilities` dimension score: start at 100; when findings exist
subtract `min(70, 15 * count)` and then the worst-severity penalty
(`≥9 → 20`, `≥7 → 12`, `≥4 → 6`, else nothing); clamp to `[0, 100]`. -/
def vuln_dimension (findings : List (Option ℚ)) : ℚ :=
  let count := findings.length
  let maxCv := worstCvss findings
  let v : ℚ := 100
  let v :=
    if 0 < count then
      let v := v - min 70 (15 * (count : ℚ))
      if 9 ≤ maxCv then v - 20
      else if 7 ≤ maxCv then v - 12
      else if 4 ≤ maxCv then v - 6
      else v
    else v
  max 0 (min 100 v)

/-! ### License dimension (nuget-audit.py `compute_risk` lines 421-432).
The input is the string `nuget_info.get("license_expression") or
gh.get("license") or ""`; Python's `x in lic` substring test is embedded as
`containsSub`. -/

/-- Substring test on character lists: `subOf n h` is true iff `n` occurs
contiguously inside `h` (the semantics of Python's `n in h` on strings). -/
def subOf (n : List Char) : List Char → Bool
  | [] => n.isEmpty
  | c :: t => n.isPrefixOf (c :: t) || subOf n t

/-- Python's `needle in hay` on strings. -/
def containsSub (needle hay : String) : Bool :=
  subOf needle.toList hay.toList

/-- The `license` dimension score: `lic = input.upper()`; `not lic → -20`,
`elif "GPL" in lic or "AGPL" in lic → -10`, `elif "LGPL" in lic or "MPL" in
lic → -5`; additionally `-15` when `lic in ("NOASSERTION", "CUSTOM")`;
clamped to `[0, 100]`. -/
def license_dimension (licInput : String) : ℚ :=
  let lic := licInput.toUpper
  let v : ℚ := 100
  let v :=
    if lic = "" then v - 20
    else if containsSub "GPL" lic || containsSub "AGPL" lic then v - 10
    else if containsSub "LGPL" lic || containsSub "MPL" lic then v - 5
    else v
  let v := if lic = "NOASSERTION" ∨ lic = "CUSTOM" then v - 15 else v
  max 0 (min 100 v)

/-! ### Weight handling (conda_forge_audit.py `parse_weights` lines 473-489,
over `DEFAULT_WEIGHTS` lines 321-327; nuget-audit.py `compute_risk` lines
438-452).  `parse_weights` is embedded at the post-parse level: the
`k=v` pairs that survived `arg.split(",")` and `float(v)` arrive as a list of
`(String, ℚ)` pairs, applied in order to a copy of the defaults with Python
dict-assignment semantics (replace in place, else append). -/

def DEFAULT_WEIGHTS : List (String × ℚ) :=
  [("vulnerabilities", 3/10), ("freshness", 1/5), ("popularity", 1/5),
   ("repo_posture", 1/5), ("license", 1/10)]

/-- Python `out[k] = v` on an insertion-ordered dict. -/
def upsert (m : List (String × ℚ)) (k : String) (v : ℚ) : List (String × ℚ) :=
  match m with
  | [] => [(k, v)]
  | (k', v') :: rest => if k' = k then (k, v) :: rest else (k', v') :: upsert rest k v

/-- `out = dict(DEFAULT_WEIGHTS)` followed by the override assignments. -/
def applyOverrides (ov : List (String × ℚ)) : List (String × ℚ) :=
  ov.foldl (fun m p => upsert m p.1 p.2) DEFAULT_WEIGHTS

/-- `sum(out.values())`. -/
def valuesSum (m : List (String × ℚ)) : ℚ :=
  (m.map Prod.snd).sum

/-- `parse_weights`: merge the override into the defaults, and when the merged
values sum `s` is positive divide every value by `s`; when `s ≤ 0` return the
defaults untouched. -/
def parse_weights (ov : List (String × ℚ)) : List (String × ℚ) :=
  let out := applyOverrides ov
  let s := valuesSum out
  if s ≤ 0 then DEFAULT_WEIGHTS
  else out.map (fun p => (p.1, p.2 / s))

/-- nuget-audit.py's weight normalization: the fixed base weights, plus an
optional `history` weight `max(0, historyWeight)`; the total (`or 1.0` guards
a zero total) divides every weight. -/
def nuget_weights (history : Option ℚ) : List (String × ℚ) :=
  let base : List (String × ℚ) :=
    [("vulnerabilities", 2/5), ("freshness", 1/5), ("popularity", 3/20),
     ("repo_posture", 3/20), ("license", 1/10)]
  let base :=
    match history with
    | Option.some h => base ++ [("history", max 0 h)]
    | Option.none => base
  let total := valuesSum base
  let total := if total = 0 then 1 else total
  base.map (fun p => (p.1, p.2 / total))

/-! ### Tier mapping (conda_forge_audit.py `risk_from_score` lines 464-471;
nuget-audit.py's `rating` expression lines 453-459 has the same bands with
lower-case names). -/

def risk_from_score (score : ℚ) : String :=
  if 80 ≤ score then "Low"
  else if 60 ≤ score then "Medium"
  else if 40 ≤ score then "High"
  else "Critical"

/-! ### Threshold gates (conda_forge_audit.py `main` lines 699-721;
pypi_audit.py `main` lines 684-697). -/

/-- One audited package as the conda gate reads it:
`(r.get("scores") or {}).get("overall")` (absent when the audit errored) and
the display name. -/
structure CondaResult where
  name : String
  overall : Option ℚ

/-- The conda `--fail-below` violator scan: `if score is None: continue;
if score < fail_below: failed.append((nm, score))`. -/
def conda_fail_below (results : List CondaResult) (threshold : ℚ) :
    List (String × ℚ) :=
  results.filterMap (fun r =>
    match r.overall with
    | Option.none => Option.none
    | Option.some sc =>
      if sc < threshold then Option.some (r.name, sc) else Option.none)

/-- The pypi `--fail-above` gate over the reported risk percents:
`if rp is None or rp > args.fail_above: gate_failed = True`. -/
def pypi_gate_fail_above (rps : List (Option ℚ)) (failAbove : ℚ) : Bool :=
  rps.any (fun rp =>
    match rp with
    | Option.none => true
    | Option.some x => decide (failAbove < x))

/-! ### pypi percent model (pypi_audit.py `score_one` lines 486-491).
Python's `round(x, n)` rounds half to even; it is embedded exactly. -/

/-- Round half to even, onto `ℤ`. -/
def rhe (x : ℚ) : ℤ :=
  let f := ⌊x⌋
  let r := x - f
  if r < 1/2 then f
  else if 1/2 < r then f + 1
  else if Even f then f else f + 1

/-- Python's `round(x, n)` for `n` decimal digits. -/
def pyRound (x : ℚ) (n : ℕ) : ℚ :=
  (rhe (x * (10 : ℚ) ^ n) : ℚ) / (10 : ℚ) ^ n

/-- The two fields of pypi_audit's `Metric` that the aggregation reads. -/
structure Metric where
  score : ℚ
  weight : ℚ

/-- `score_total_good = round(sum(m.score for m in metrics), 2)`. -/
def score_total_good (ms : List Metric) : ℚ :=
  pyRound ((ms.map Metric.score).sum) 2

/-- `score_max = sum(m.weight for m in metrics)`. -/
def score_max (ms : List Metric) : ℚ :=
  (ms.map Metric.weight).sum

/-- `health_percent = round((score_total_good / score_max) * 100, 1) if
score_max else 0.0`. -/
def health_percent (ms : List Metric) : ℚ :=
  if score_max ms = 0 then 0
  else pyRound (score_total_good ms / score_max ms * 100) 1

/-- `risk_percent = round(100.0 - health_percent, 1)`. -/
def risk_percent (ms : List Metric) : ℚ :=
  pyRound (100 - health_percent ms) 1

/-! ### Version constraint resolver (sbom_supply_chain_risk.py.py lines
40-93 and the `has_exact` expression at line 290).  The four regexes
`EXACT_RE`, `LOWERBOUND_RE`, `RANGE_LOWERBOUND_RE` and `SEMVER_RE` are
embedded as deterministic matchers; on these patterns the regex engine's
backtracking never changes the outcome (each greedy token is followed by a
character its own class excludes), so maximal-munch scanning is exact. -/

/-- Python's `\s` / `str.strip()` whitespace class. -/
def isPySpace (c : Char) : Bool :=
  c = ' ' || c = '\t' || c = '\n' || c = '\r' || c = '\x0b' || c = '\x0c'

/-- `str.strip()`. -/
def pyStrip (s : String) : String :=
  String.mk (((s.toList.dropWhile isPySpace).reverse.dropWhile isPySpace).reverse)

/-- Maximal run of digits and the remainder. -/
def takeDigits (cs : List Char) : List Char × List Char :=
  (cs.takeWhile Char.isDigit, cs.dropWhile Char.isDigit)

/-- `\d+\.\d+\.\d+` at the head of the input: the matched text and the rest. -/
def matchVer (cs : List Char) : Option (String × List Char) :=
  let (d1, r1) := takeDigits cs
  if d1 = [] then Option.none else
  match r1 with
  | '.' :: r2 =>
    let (d2, r3) := takeDigits r2
    if d2 = [] then Option.none else
    match r3 with
    | '.' :: r4 =>
      let (d3, r5) := takeDigits r4
      if d3 = [] then Option.none else
      Option.some (String.mk (d1 ++ '.' :: (d2 ++ '.' :: d3)), r5)
    | _ => Option.none
  | _ => Option.none

/-- `EXACT_RE = ^\s*(==|=)?\s*v?(\d+\.\d+\.\d+)\s*$`, returning group 2. -/
def matchExact (s : String) : Option String :=
  let cs := s.toList.dropWhile isPySpace
  let cs :=
    match cs with
    | '=' :: '=' :: r => r
    | '=' :: r => r
    | r => r
  let cs := cs.dropWhile isPySpace
  let cs := match cs with | 'v' :: r => r | r => r
  match matchVer cs with
  | Option.some (ver, rest) =>
    if rest.all isPySpace then Option.some ver else Option.none
  | Option.none => Option.none

/-- `LOWERBOUND_RE = ^\s*>=\s*v?(\d+\.\d+\.\d+)\s*$`. -/
def matchLowerBound (s : String) : Option String :=
  match s.toList.dropWhile isPySpace with
  | '>' :: '=' :: r =>
    let cs := r.dropWhile isPySpace
    let cs := match cs with | 'v' :: r' => r' | r' => r'
    match matchVer cs with
    | Option.some (ver, rest) =>
      if rest.all isPySpace then Option.some ver else Option.none
    | Option.none => Option.none
  | _ => Option.none

/-- `RANGE_LOWERBOUND_RE = ^\s*>=\s*v?(ver)\s*,\s*<\s*v?(ver)\s*$`,
returning group 1 (the lower bound). -/
def matchRangeLowerBound (s : String) : Option String :=
  match s.toList.dropWhile isPySpace with
  | '>' :: '=' :: r =>
    let cs := r.dropWhile isPySpace
    let cs := match cs with | 'v' :: r' => r' | r' => r'
    match matchVer cs with
    | Option.some (ver, rest) =>
      (match rest.dropWhile isPySpace with
       | ',' :: r2 =>
         (match r2.dropWhile isPySpace with
          | '<' :: r3 =>
            let cs3 := r3.dropWhile isPySpace
            let cs3 := match cs3 with | 'v' :: r4 => r4 | r4 => r4
            match matchVer cs3 with
            | Option.some (_, rest2) =>
              if rest2.all isPySpace then Option.some ver else Option.none
            | Option.none => Option.none
          | _ => Option.none)
       | _ => Option.none)
    | Option.none => Option.none
  | _ => Option.none

/-- `\w` for the `\b` boundary of `SEMVER_RE`. -/
def isWordChar (c : Char) : Bool :=
  c.isAlphanum || c = '_'

/-- `SEMVER_RE`'s body at one position: `(\d+)\.(\d+)\.(\d+)` followed by a
character of `[-+~.^<>=! ]` or the end; the f-string rebuilds `a.b.c`. -/
def semverAt (cs : List Char) : Option String :=
  match matchVer cs with
  | Option.some (ver, rest) =>
    (match rest with
     | [] => Option.some ver
     | c :: _ =>
       if c ∈ ['-', '+', '~', '.', '^', '<', '>', '=', '!', ' '] then
         Option.some ver
       else Option.none)
  | Option.none => Option.none

/-- `SEMVER_RE.search`: leftmost position with a `\b` boundary where the body
matches. -/
def semverSearch : Option Char → List Char → Option String
  | _, [] => Option.none
  | prev, c :: t =>
    let boundaryOk := match prev with | Option.none => true | Option.some p => !isWordChar p
    if boundaryOk then
      match semverAt (c :: t) with
      | Option.some v => Option.some v
      | Option.none => semverSearch (Option.some c) t
    else semverSearch (Option.some c) t

/-- `guess_version_from_versioninfo(version_info, strategy)`: falsy input →
`None`; an exact pin always resolves; under `"exact"`/`"none"` nothing else
does; otherwise try the lower-bound and range patterns, then the embedded
semver fallback. -/
def guess_version_from_versioninfo (versionInfo : Option String)
    (strategy : String) : Option String :=
  match versionInfo with
  | Option.none => Option.none
  | Option.some v0 =>
    if v0 = "" then Option.none
    else
      let s := pyStrip v0
      match matchExact s with
      | Option.some ver => Option.some ver
      | Option.none =>
        if strategy = "exact" ∨ strategy = "none" then Option.none
        else
          match matchLowerBound s with
          | Option.some ver => Option.some ver
          | Option.none =>
            match matchRangeLowerBound s with
            | Option.some ver => Option.some ver
            | Option.none => semverSearch Option.none s.toList

/-- Line 290 of `compute_risk`: `has_exact = bool(assumed) and
bool(EXACT_RE.match((vi or "").strip()) or
EXACT_RE.match((assumed or "").strip()))`. -/
def has_exact (versionInfo : Option String) (assumed : Option String) : Bool :=
  (match assumed with
   | Option.some a => a ≠ ""
   | Option.none => false) &&
  ((matchExact (pyStrip (versionInfo.getD ""))).isSome ||
   (matchExact (pyStrip (assumed.getD ""))).isSome)

/-! ### Vulnerability id collection (sbom_supply_chain_risk.py.py
`compute_risk` lines 331-343): per package, keep the string-typed `id` of
each returned record in source order, then truncate with
`ids[:max_vulns_per_pkg]`.  A non-dict record raises on `v.get("id")`. -/

/-- `ids = []; for v in vulns: vid = v.get("id"); if isinstance(vid, str):
ids.append(vid)`. -/
def extractIds : List PyVal → Except PyErr (List String)
  | [] => .ok []
  | v :: rest =>
    match pyGet v "id" with
    | .error e => .error e
    | .ok vid =>
      match extractIds rest with
      | .error e => .error e
      | .ok ids =>
        .ok ((match vid with | PyVal.str s => [s] | _ => []) ++ ids)

/-- The kept finding ids for one package: `ids[:max_vulns_per_pkg]`. -/
def capIds (vulns : List PyVal) (maxVulnsPerPkg : ℕ) :
    Except PyErr (List String) :=
  match extractIds vulns with
  | .error e => .error e
  | .ok ids => .ok (ids.take maxVulnsPerPkg)

/-- Shape predicate for severity fields the `_max_cvss` loop can consume
without raising: falsy values (replaced by `[]`) or iterables. -/
def iterableOrFalsy (v : PyVal) : Bool :=
  !v.truthy ||
  (match v with
   | PyVal.list _ => true
   | PyVal.str _ => true
   | PyVal.dict _ => true
   | _ => false)

/-- Shape predicate for `database_specific` values whose `.get` cannot
raise: falsy values (replaced by `{}`) or dicts. -/
def dictOrFalsy (v : PyVal) : Bool :=
  !v.truthy ||
  (match v with | PyVal.dict _ => true | _ => false)

/-! ## Claims -/

/-- C1: For every list of findings, the vulnerability-penalty dimension
score starts at 100 and, exactly when the list is non-empty, subtracts
`min(70, 15 × count)` and then one fixed penalty keyed to the single worst
severity present (worst CVSS ≥ 9 → 20, ≥ 7 → 12, ≥ 4 → 6, lower or unknown
→ 0), clamped to `[0, 100]`; an empty finding list scores exactly 100. -/
theorem vuln_dimension_spec (l : List (Option ℚ)) :
    (l = [] → vuln_dimension l = 100) ∧
    (l ≠ [] →
      vuln_dimension l =
        max 0 (min 100
          (100 - min 70 (15 * (l.length : ℚ)) -
            (if 9 ≤ worstCvss l then 20
             else if 7 ≤ worstCvss l then 12
             else if 4 ≤ worstCvss l then 6 else (0 : ℚ))))) ∧
    (l ≠ [] → vuln_dimension l ≤ 85) ∧
    0 ≤ vuln_dimension l ∧ vuln_dimension l ≤ 100 := by
  have hmain : l ≠ [] →
      vuln_dimension l =
        max 0 (min 100
          (100 - min 70 (15 * (l.length : ℚ)) -
            (if 9 ≤ worstCvss l then 20
             else if 7 ≤ worstCvss l then 12
             else if 4 ≤ worstCvss l then 6 else (0 : ℚ)))) := by
    intro hne
    have hpos : 0 < l.length := List.length_pos.mpr hne
    simp only [vuln_dimension, if_pos hpos]
    split_ifs <;> ring_nf
  refine ⟨?_, hmain, ?_, ?_, ?_⟩
  · intro h
    subst h
    simp [vuln_dimension]
  · intro hne
    rw [hmain hne]
    have hlen : (1 : ℚ) ≤ (l.length : ℚ) := by
      exact_mod_cast Nat.one_le_iff_ne_zero.mpr
        (fun h => hne (List.length_eq_zero.mp h))
    have h15 : (15 : ℚ) ≤ min 70 (15 * (l.length : ℚ)) := by
      rw [le_min_iff]
      constructor
      · norm_num
      · nlinarith
    have hpen : (0 : ℚ) ≤
        (if 9 ≤ worstCvss l then 20
         else if 7 ≤ worstCvss l then 12
         else if 4 ≤ worstCvss l then 6 else (0 : ℚ)) := by
      split_ifs <;> norm_num
    have : (100 : ℚ) - min 70 (15 * (l.length : ℚ)) -
        (if 9 ≤ worstCvss l then 20
         else if 7 ≤ worstCvss l then 12
         else if 4 ≤ worstCvss l then 6 else (0 : ℚ)) ≤ 85 := by linarith
    have h0 : (0 : ℚ) ≤ 85 := by norm_num
    rw [max_le_iff, min_le_iff]
    exact ⟨h0, Or.inr this⟩
  · exact le_max_left 0 _
  · unfold vuln_dimension
    exact max_le (by norm_num) (min_le_left _ _)

/-- C1 witness: the theorem applied to the singleton finding list with a
worst CVSS of 5: one finding costs `min(70, 15) = 15` plus the MEDIUM
penalty 6, so the dimension scores 79. -/
theorem vuln_dimension_spec_witness :
    vuln_dimension [Option.some (5 : ℚ)] =
      max 0 (min 100
        (100 - min 70 (15 * (([Option.some (5 : ℚ)].length : ℕ) : ℚ)) -
          (if 9 ≤ worstCvss [Option.some (5 : ℚ)] then 20
           else if 7 ≤ worstCvss [Option.some (5 : ℚ)] then 12
           else if 4 ≤ worstCvss [Option.some (5 : ℚ)] then 6 else (0 : ℚ)))) ∧
    vuln_dimension [Option.some (5 : ℚ)] ≤ 85 := by
  have h := vuln_dimension_spec [Option.some (5 : ℚ)]
  exact ⟨h.2.1 (by simp), h.2.2.1 (by simp)⟩

/-- C4: the overall-score-to-tier mapping is a total partition of the score
axis: Low iff score ≥ 80, Medium iff 60 ≤ score < 80, High iff
40 ≤ score < 60, Critical iff score < 40. -/
theorem risk_from_score_tiers (s : ℚ) (h0 : 0 ≤ s) (h100 : s ≤ 100) :
    (risk_from_score s = "Low" ↔ 80 ≤ s) ∧
    (risk_from_score s = "Medium" ↔ 60 ≤ s ∧ s < 80) ∧
    (risk_from_score s = "High" ↔ 40 ≤ s ∧ s < 60) ∧
    (risk_from_score s = "Critical" ↔ s < 40) := by
  unfold risk_from_score
  split_ifs with h1 h2 h3
  · exact ⟨⟨fun _ => h1, fun _ => rfl⟩,
      ⟨fun hh => absurd hh (by decide), fun hh => absurd hh.2 (not_lt.mpr h1)⟩,
      ⟨fun hh => absurd hh (by decide),
        fun hh => absurd hh.2 (not_lt.mpr (by linarith))⟩,
      ⟨fun hh => absurd hh (by decide),
        fun hh => absurd hh (not_lt.mpr (by linarith))⟩⟩
  · exact ⟨⟨fun hh => absurd hh (by decide), fun hh => absurd hh h1⟩,
      ⟨fun _ => ⟨h2, not_le.mp h1⟩, fun _ => rfl⟩,
      ⟨fun hh => absurd hh (by decide),
        fun hh => absurd hh.2 (not_lt.mpr h2)⟩,
      ⟨fun hh => absurd hh (by decide),
        fun hh => absurd hh (not_lt.mpr (by linarith))⟩⟩
  · exact ⟨⟨fun hh => absurd hh (by decide), fun hh => absurd hh h1⟩,
      ⟨fun hh => absurd hh (by decide), fun hh => absurd hh.1 h2⟩,
      ⟨fun _ => ⟨h3, not_le.mp h2⟩, fun _ => rfl⟩,
      ⟨fun hh => absurd hh (by decide),
        fun hh => absurd hh (not_lt.mpr h3)⟩⟩
  · exact ⟨⟨fun hh => absurd hh (by decide), fun hh => absurd hh h1⟩,
      ⟨fun hh => absurd hh (by decide), fun hh => absurd hh.1 h2⟩,
      ⟨fun hh => absurd hh (by decide), fun hh => absurd hh.1 h3⟩,
      ⟨fun _ => not_le.mp h3, fun _ => rfl⟩⟩

/-- C4 witness: the tier characterization evaluated at score 85, which the
mapping places in the Low tier. -/
theorem risk_from_score_tiers_witness :
    risk_from_score 85 = "Low" ∧ risk_from_score 85 ≠ "Medium" := by
  have h := risk_from_score_tiers 85 (by norm_num) (by norm_num)
  refine ⟨h.1.mpr (by norm_num), fun hc => ?_⟩
  have := h.2.1.mp hc
  linarith [this.2]

/-- Any occurrence of `LGPL` inside a character list contains an occurrence
of `GPL` (drop the leading `L`). -/
theorem subOf_gpl_of_lgpl :
    ∀ h : List Char, subOf ['L', 'G', 'P', 'L'] h = true →
      subOf ['G', 'P', 'L'] h = true := by
  intro h
  induction h with
  | nil => intro hx; simp [subOf] at hx
  | cons c t ih =>
    intro hx
    simp only [subOf, Bool.or_eq_true] at hx ⊢
    rcases hx with hpre | hsub
    · simp only [List.isPrefixOf, Bool.and_eq_true, beq_iff_eq] at hpre
      right
      cases t with
      | nil => simp [List.isPrefixOf] at hpre
      | cons d t' =>
        simp only [subOf, Bool.or_eq_true]
        left
        simp only [List.isPrefixOf, Bool.and_eq_true, beq_iff_eq] at hpre ⊢
        exact hpre.2
    · exact Or.inr (ih hsub)

/-- C2 counterexample: a record whose maximum numeric CVSS score is exactly
`0` (one `CVSS_V3` entry with score `0`).  The claim requires the label
UNKNOWN for `s = 0` ("LOW if and only if 0 < s < 4, UNKNOWN otherwise"),
but `_sev_label` returns LOW for every present numeric score below 4,
including 0. -/
theorem sev_label_low_at_zero_cx :
    max_cvss [("severity", PyVal.list
        [PyVal.dict [("type", PyVal.str "CVSS_V3"), ("score", PyVal.num 0)]])] =
      .ok (Option.some 0) ∧
    sev_label [("severity", PyVal.list
        [PyVal.dict [("type", PyVal.str "CVSS_V3"), ("score", PyVal.num 0)]])] =
      .ok (PyVal.str "LOW") ∧
    ¬((0 : ℚ) < 0 ∧ (0 : ℚ) < 4) := by
  refine ⟨by with_unfolding_all rfl, by with_unfolding_all rfl, ?_⟩
  intro hc
  exact absurd hc.1 (lt_irrefl 0)

/-- C2 (amended): whenever `_max_cvss` produces a numeric score `s`, the
label is the fixed band mapping of `s`: CRITICAL iff `s ≥ 9`, HIGH iff
`7 ≤ s < 9`, MEDIUM iff `4 ≤ s < 7`, and LOW iff `s < 4` (so `s = 0` and
any negative score give LOW, never UNKNOWN), and the label rank is monotonic
non-decreasing in the score. -/
theorem sev_label_bands (v : List (String × PyVal)) (s : ℚ)
    (h : max_cvss v = .ok (Option.some s)) :
    sev_label v = .ok (PyVal.str (bandLabel s)) ∧
    (bandLabel s = "CRITICAL" ↔ 9 ≤ s) ∧
    (bandLabel s = "HIGH" ↔ 7 ≤ s ∧ s < 9) ∧
    (bandLabel s = "MEDIUM" ↔ 4 ≤ s ∧ s < 7) ∧
    (bandLabel s = "LOW" ↔ s < 4) ∧
    (∀ s₁ s₂ : ℚ, s₁ ≤ s₂ → labelRank (bandLabel s₁) ≤ labelRank (bandLabel s₂)) := by
  refine ⟨?_, ?_, ?_, ?_, ?_, ?_⟩
  · unfold sev_label
    rw [h]
  · unfold bandLabel
    split_ifs with h9 h7 h4
    · exact ⟨fun _ => h9, fun _ => rfl⟩
    · exact ⟨fun hh => absurd hh (by decide), fun hh => absurd hh h9⟩
    · exact ⟨fun hh => absurd hh (by decide), fun hh => absurd hh h9⟩
    · exact ⟨fun hh => absurd hh (by decide), fun hh => absurd hh h9⟩
  · unfold bandLabel
    split_ifs with h9 h7 h4
    · exact ⟨fun hh => absurd hh (by decide),
        fun hh => absurd hh.2 (not_lt.mpr h9)⟩
    · exact ⟨fun _ => ⟨h7, not_le.mp h9⟩, fun _ => rfl⟩
    · exact ⟨fun hh => absurd hh (by decide), fun hh => absurd hh.1 h7⟩
    · exact ⟨fun hh => absurd hh (by decide), fun hh => absurd hh.1 h7⟩
  · unfold bandLabel
    split_ifs with h9 h7 h4
    · exact ⟨fun hh => absurd hh (by decide),
        fun hh => absurd hh.2 (not_lt.mpr (by linarith))⟩
    · exact ⟨fun hh => absurd hh (by decide),
        fun hh => absurd hh.2 (not_lt.mpr h7)⟩
    · exact ⟨fun _ => ⟨h4, not_le.mp h7⟩, fun _ => rfl⟩
    · exact ⟨fun hh => absurd hh (by decide), fun hh => absurd hh.1 h4⟩
  · unfold bandLabel
    split_ifs with h9 h7 h4
    · exact ⟨fun hh => absurd hh (by decide),
        fun hh => absurd hh (not_lt.mpr (by linarith))⟩
    · exact ⟨fun hh => absurd hh (by decide),
        fun hh => absurd hh (not_lt.mpr (by linarith))⟩
    · exact ⟨fun hh => absurd hh (by decide),
        fun hh => absurd hh (not_lt.mpr h4)⟩
    · exact ⟨fun _ => not_le.mp h4, fun _ => rfl⟩
  · intro s₁ s₂ hle
    unfold bandLabel labelRank
    split_ifs with a1 a2 a3 b1 b2 b3 <;> simp_all <;> linarith

/-- C2 witness: the band characterization applied to a record carrying one
`CVSS_V3` entry with score 5 (a MEDIUM). -/
theorem sev_label_bands_witness :
    sev_label [("severity", PyVal.list
        [PyVal.dict [("type", PyVal.str "CVSS_V3"), ("score", PyVal.num 5)]])] =
      .ok (PyVal.str (bandLabel 5)) ∧
    (bandLabel 5 = "MEDIUM" ↔ 4 ≤ (5 : ℚ) ∧ (5 : ℚ) < 7) := by
  have h := sev_label_bands
    [("severity", PyVal.list
        [PyVal.dict [("type", PyVal.str "CVSS_V3"), ("score", PyVal.num 5)]])]
    5 (by with_unfolding_all rfl)
  exact ⟨h.1, h.2.2.2.1⟩

/-- C8 counterexample: the license scorer's strongly-restrictive test is a
substring test, and `"GPL"` occurs inside `"LGPL"`, so the weak-copyleft
LGPL family is deducted 10 (scoring 90) where the claim demands 5 (scoring
95); and an unrecognized license such as `"FOO"` receives no additional 15
deduction (scoring 100 where the claim demands 85). -/
theorem license_lgpl_cx :
    license_dimension "LGPL-2.1" = 90 ∧ license_dimension "FOO" = 100 := by
  constructor <;> with_unfolding_all rfl

/-- C8 (amended): the license dimension starts at 100 and deducts 20 when
the license string is empty, else 10 when its upper-casing contains `GPL`
or `AGPL` as a substring — which captures every LGPL string, since `GPL`
occurs inside `LGPL` — else 5 when it contains `LGPL` or `MPL` (reachable
only via `MPL`), and additionally 15 exactly when the upper-cased string
equals `NOASSERTION` or `CUSTOM`; the result is clamped to `[0, 100]`. -/
theorem license_dimension_spec (s : String) :
    license_dimension s =
      max 0 (min 100
        ((if s.toUpper = "" then (80 : ℚ)
          else if containsSub "GPL" s.toUpper || containsSub "AGPL" s.toUpper then 90
          else if containsSub "LGPL" s.toUpper || containsSub "MPL" s.toUpper then 95
          else 100) -
         (if s.toUpper = "NOASSERTION" ∨ s.toUpper = "CUSTOM" then 15 else 0))) ∧
    (∀ u : String, containsSub "LGPL" u = true → containsSub "GPL" u = true) ∧
    0 ≤ license_dimension s ∧ license_dimension s ≤ 100 := by
  refine ⟨?_, ?_, ?_, ?_⟩
  · unfold license_dimension
    by_cases h1 : s.toUpper = "" <;>
      by_cases h2 : (containsSub "GPL" s.toUpper || containsSub "AGPL" s.toUpper) = true <;>
      by_cases h3 : (containsSub "LGPL" s.toUpper || containsSub "MPL" s.toUpper) = true <;>
      by_cases h4 : s.toUpper = "NOASSERTION" ∨ s.toUpper = "CUSTOM" <;>
      simp only [h1, h2, h3, h4, if_true, if_false, if_pos, if_neg, not_false_iff]
    all_goals try norm_num
    all_goals with_unfolding_all decide
  · intro u hu
    exact subOf_gpl_of_lgpl u.toList hu
  · exact le_max_left 0 _
  · unfold license_dimension
    exact max_le (by norm_num) (min_le_left _ _)

/-- C8 witness: the amended characterization applied to `"LGPL-2.1"`,
whose upper-casing contains `GPL`, giving 90. -/
theorem license_dimension_spec_witness :
    license_dimension "LGPL-2.1" =
      max 0 (min 100
        ((if ("LGPL-2.1" : String).toUpper = "" then (80 : ℚ)
          else if containsSub "GPL" ("LGPL-2.1" : String).toUpper ||
              containsSub "AGPL" ("LGPL-2.1" : String).toUpper then 90
          else if containsSub "LGPL" ("LGPL-2.1" : String).toUpper ||
              containsSub "MPL" ("LGPL-2.1" : String).toUpper then 95
          else 100) -
         (if ("LGPL-2.1" : String).toUpper = "NOASSERTION" ∨
             ("LGPL-2.1" : String).toUpper = "CUSTOM" then 15 else 0))) ∧
    containsSub "GPL" "LGPL" = true := by
  refine ⟨(license_dimension_spec "LGPL-2.1").1, ?_⟩
  exact (license_dimension_spec "LGPL-2.1").2.1 "LGPL" (by decide)

/-- Dividing every value of a weight map by `s` divides the values sum. -/
theorem valuesSum_map_div (m : List (String × ℚ)) (s : ℚ) :
    valuesSum (m.map fun p => (p.1, p.2 / s)) = valuesSum m / s := by
  induction m with
  | nil => simp [valuesSum]
  | cons a t ih => simp [valuesSum, add_div] at ih ⊢; rw [ih]

/-- C3 counterexample: the override `vulnerabilities=-0.01` has values
summing to `-1/100 ≤ 0`, yet `parse_weights` does not fall back to the
default weights: the merged map still sums to `69/100 > 0`, so the negative
override is normalized into the output instead. -/
theorem parse_weights_override_sum_cx :
    ((([("vulnerabilities", (-1 : ℚ)/100)]).map Prod.snd).sum ≤ 0) ∧
    parse_weights [("vulnerabilities", (-1 : ℚ)/100)] ≠ DEFAULT_WEIGHTS := by
  constructor
  · with_unfolding_all decide
  · with_unfolding_all decide

/-- C3 (amended): `parse_weights` always returns weights summing exactly to
1 (the defaults themselves sum to 1), and the fallback to the defaults is
keyed to the sum of the *merged* map — defaults overlaid with the override —
being `≤ 0`, not to the override's own values; nuget-audit's in-line weight
normalization (base weights plus optional history weight) likewise always
sums to 1. -/
theorem parse_weights_normalization (ov : List (String × ℚ)) :
    valuesSum (parse_weights ov) = 1 ∧
    (valuesSum (applyOverrides ov) ≤ 0 → parse_weights ov = DEFAULT_WEIGHTS) ∧
    (∀ h : Option ℚ, valuesSum (nuget_weights h) = 1) := by
  have hdef : valuesSum DEFAULT_WEIGHTS = 1 := by
    norm_num [DEFAULT_WEIGHTS, valuesSum]
  refine ⟨?_, ?_, ?_⟩
  · unfold parse_weights
    by_cases hs : valuesSum (applyOverrides ov) ≤ 0
    · rw [if_pos hs]
      exact hdef
    · rw [if_neg hs, valuesSum_map_div]
      exact div_self (ne_of_gt (not_le.mp hs))
  · intro hs
    unfold parse_weights
    rw [if_pos hs]
  · intro h
    cases h with
    | none => norm_num [nuget_weights, valuesSum]
    | some hq =>
      have hmax : (0 : ℚ) ≤ max 0 hq := le_max_left 0 hq
      have hsum : valuesSum
          ([("vulnerabilities", (2 : ℚ)/5), ("freshness", 1/5), ("popularity", 3/20),
            ("repo_posture", 3/20), ("license", 1/10)] ++ [("history", max 0 hq)]) =
          1 + max 0 hq := by
        simp [valuesSum]
        ring
      have hne : (1 : ℚ) + max 0 hq ≠ 0 := by linarith
      unfold nuget_weights
      simp only [hsum, if_neg hne, valuesSum_map_div]
      exact div_self hne

/-- C3 witness: the amended theorem applied to a nonnegative override
(`popularity=0.5`, normalized output sums to 1) and to an everything-negative
override (merged sum `-5 ≤ 0`, defaults returned). -/
theorem parse_weights_normalization_witness :
    valuesSum (parse_weights [("popularity", (1 : ℚ)/2)]) = 1 ∧
    parse_weights
      [("vulnerabilities", (-1 : ℚ)), ("freshness", (-1 : ℚ)), ("popularity", (-1 : ℚ)),
       ("repo_posture", (-1 : ℚ)), ("license", (-1 : ℚ))] = DEFAULT_WEIGHTS := by
  constructor
  · exact (parse_weights_normalization [("popularity", (1 : ℚ)/2)]).1
  · exact (parse_weights_normalization _).2.1 (by with_unfolding_all decide)

/-- C5: evaluation of the resolver at the claim's round-trip inputs.
`"==2.31.0"` resolves to `"2.31.0"` under all three strategies and is marked
exact; `">=1.2.3,<2.0.0"` resolves to `"1.2.3"` under `lowerbound` and to
nothing under `exact` — but, contrary to the claim (and to the documented
invariant that ranges are never marked exact), `has_exact` is `true` for the
range as well, because the extracted lower bound `"1.2.3"` itself matches
`EXACT_RE`, making the `EXACT_RE.match(vi)` disjunct dead code. -/
theorem resolver_range_exact_flag :
    guess_version_from_versioninfo (Option.some "==2.31.0") "exact" =
      Option.some "2.31.0" ∧
    guess_version_from_versioninfo (Option.some "==2.31.0") "lowerbound" =
      Option.some "2.31.0" ∧
    guess_version_from_versioninfo (Option.some "==2.31.0") "none" =
      Option.some "2.31.0" ∧
    has_exact (Option.some "==2.31.0") (Option.some "2.31.0") = true ∧
    guess_version_from_versioninfo (Option.some ">=1.2.3,<2.0.0") "lowerbound" =
      Option.some "1.2.3" ∧
    guess_version_from_versioninfo (Option.some ">=1.2.3,<2.0.0") "exact" =
      Option.none ∧
    has_exact (Option.some ">=1.2.3,<2.0.0") (Option.some "1.2.3") = true := by
  refine ⟨?_, ?_, ?_, ?_, ?_, ?_, ?_⟩ <;> with_unfolding_all rfl

/-- C6 counterexample: a source response carrying the same vulnerability id
twice yields a finding list with a duplicate id — the collection performs no
deduplication, contradicting the claimed per-package id-uniqueness. -/
theorem capIds_duplicate_cx :
    capIds [PyVal.dict [("id", PyVal.str "A")], PyVal.dict [("id", PyVal.str "A")]] 10 =
      .ok ["A", "A"] ∧
    ¬(["A", "A"] : List String).Nodup := by
  exact ⟨rfl, by decide⟩

/-- C6 (amended): the kept finding ids are exactly the first `maxResults`
elements, in source order, of the sequence of string-typed ids extracted
from the response (an order-preserving prefix); the length is capped by
`maxResults`; and the output is duplicate-free only when the extracted id
sequence already is — no deduplication is applied. -/
theorem capIds_prefix_cap (vulns : List PyVal) (maxR : ℕ) (ids : List String)
    (h : extractIds vulns = .ok ids) :
    capIds vulns maxR = .ok (ids.take maxR) ∧
    (ids.take maxR).length ≤ maxR ∧
    ids.take maxR ++ ids.drop maxR = ids ∧
    (ids.Nodup → (ids.take maxR).Nodup) := by
  refine ⟨?_, ?_, ?_, ?_⟩
  · unfold capIds
    rw [h]
  · simpa using List.length_take_le maxR ids
  · exact List.take_append_drop maxR ids
  · exact fun hnd => (List.take_sublist maxR ids).nodup hnd

/-- C6 witness: the amended theorem applied to a three-record response with
`maxResults = 2`. -/
theorem capIds_prefix_cap_witness :
    capIds [PyVal.dict [("id", PyVal.str "A")], PyVal.dict [("id", PyVal.str "B")],
            PyVal.dict [("id", PyVal.str "C")]] 2 =
      .ok ((["A", "B", "C"] : List String).take 2) ∧
    ((["A", "B", "C"] : List String).take 2).length ≤ 2 := by
  have h := capIds_prefix_cap
    [PyVal.dict [("id", PyVal.str "A")], PyVal.dict [("id", PyVal.str "B")],
     PyVal.dict [("id", PyVal.str "C")]] 2 ["A", "B", "C"] rfl
  exact ⟨h.1, h.2.1⟩

/-- C7 counterexample: in the conda gate a result whose overall score is
unresolvable (`None`) is skipped — the violator list stays empty and the
gate passes — while a resolved below-threshold score is listed; the claim
requires the unresolvable result to be a violator by default. -/
theorem conda_gate_skip_cx :
    conda_fail_below [⟨"pkg1", Option.none⟩] 50 = [] ∧
    conda_fail_below [⟨"pkg2", Option.some 30⟩] 50 = [("pkg2", 30)] := by
  exact ⟨rfl, by with_unfolding_all rfl⟩

/-- C7 (amended): the conda `--fail-below` gate unconditionally skips
results with unresolvable overall scores (fail-open; no opt-in flag exists),
whereas the pypi `--fail-above` gate treats an unresolvable risk percent as
a gate failure (fail-closed). -/
theorem gate_unresolved_policy (rs : List CondaResult) (t : ℚ)
    (rps : List (Option ℚ)) (fa : ℚ) :
    conda_fail_below rs t =
      conda_fail_below (rs.filter fun r => r.overall.isSome) t ∧
    (Option.none ∈ rps → pypi_gate_fail_above rps fa = true) := by
  constructor
  · induction rs with
    | nil => rfl
    | cons r rest ih =>
      cases hro : r.overall with
      | none =>
        simp only [conda_fail_below, List.filterMap_cons, List.filter_cons, hro,
          Option.isSome_none, Bool.false_eq_true, if_false] at ih ⊢
        exact ih
      | some sc =>
        simp only [conda_fail_below, List.filterMap_cons, List.filter_cons, hro,
          Option.isSome_some, if_true] at ih ⊢
        rw [ih]
  · intro hmem
    unfold pypi_gate_fail_above
    rw [List.any_eq_true]
    exact ⟨Option.none, hmem, rfl⟩

/-- C7 witness: the amended theorem applied to a batch holding one
unresolvable conda result (scan result unchanged after dropping it) and a
pypi batch containing an unresolvable percent (gate fails). -/
theorem gate_unresolved_policy_witness :
    conda_fail_below [⟨"pkg1", Option.none⟩] 50 =
      conda_fail_below
        (([⟨"pkg1", Option.none⟩] : List CondaResult).filter
          fun r => r.overall.isSome) 50 ∧
    pypi_gate_fail_above [Option.some 10, Option.none] 70 = true := by
  have h := gate_unresolved_policy [⟨"pkg1", Option.none⟩] 50
    [Option.some 10, Option.none] 70
  exact ⟨h.1, h.2 (by simp)⟩

/-- C9 counterexample: a record whose `severity` field is the number 5 — a
truthy non-iterable — makes the normalizer raise `TypeError` at the
`for s in v.get("severity") or []` loop header, outside every `try` block;
the claim requires a result without throwing for records of unexpected
type. -/
theorem sev_label_raises_cx :
    sev_label [("severity", PyVal.num 5)] = .error .typeError ∧
    sev_label [("database_specific", PyVal.num 3)] = .error .attributeError := by
  exact ⟨rfl, rfl⟩

/-- C9 (amended): the normalizer returns a result without raising for every
record whose `severity` field is falsy or iterable (list, string or dict —
arbitrarily malformed elements inside are swallowed by the per-element
`try/except`) and whose `database_specific` field is falsy or a dict; when
both fields are absent it degrades to the UNKNOWN label.  A truthy
non-iterable `severity` (e.g. a number) or a truthy non-dict
`database_specific` raises instead. -/
theorem sev_label_total_on_wellshaped (v : List (String × PyVal))
    (h1 : iterableOrFalsy (dget v "severity") = true)
    (h2 : dictOrFalsy (dget v "database_specific") = true) :
    (∃ r, sev_label v = .ok r) ∧
    (dget v "severity" = PyVal.none → dget v "database_specific" = PyVal.none →
      sev_label v = .ok (PyVal.str "UNKNOWN")) := by
  constructor
  · obtain ⟨elems, helems⟩ : ∃ elems,
        pyIter (if (dget v "severity").truthy then dget v "severity" else PyVal.list []) =
          .ok elems := by
      cases hv : dget v "severity" with
      | none => exact ⟨[], by simp [PyVal.truthy, pyIter]⟩
      | bool b =>
        rw [hv] at h1
        simp [iterableOrFalsy, PyVal.truthy] at h1
        exact ⟨[], by simp [PyVal.truthy, h1, pyIter]⟩
      | num q =>
        rw [hv] at h1
        simp [iterableOrFalsy, PyVal.truthy] at h1
        exact ⟨[], by simp [PyVal.truthy, h1, pyIter]⟩
      | str s =>
        by_cases hs : s = ""
        · exact ⟨[], by simp [PyVal.truthy, hs, pyIter]⟩
        · exact ⟨s.toList.map (fun c => PyVal.str c.toString),
            by rw [if_pos (by simp [PyVal.truthy, hs])]; rfl⟩
      | list xs =>
        by_cases hs : xs.isEmpty
        · exact ⟨[], by simp [PyVal.truthy, hs, pyIter]⟩
        · exact ⟨xs, by rw [if_pos (by simp [PyVal.truthy, hs])]; rfl⟩
      | dict kvs =>
        by_cases hs : kvs.isEmpty
        · exact ⟨[], by simp [PyVal.truthy, hs, pyIter]⟩
        · exact ⟨kvs.map (fun p => PyVal.str p.1),
            by rw [if_pos (by simp [PyVal.truthy, hs])]; rfl⟩
    have hmc : ∃ mc, max_cvss v = .ok mc := by
      simp only [max_cvss]
      rw [helems]
      exact ⟨_, rfl⟩
    obtain ⟨mc, hmc⟩ := hmc
    cases mc with
    | some sc => exact ⟨_, by unfold sev_label; rw [hmc]⟩
    | none =>
      have hds : ∃ w, pyGet
          (if (dget v "database_specific").truthy then dget v "database_specific"
           else PyVal.dict []) "severity" = .ok w := by
        cases hd : dget v "database_specific" with
        | dict kvs =>
          by_cases hs : kvs.isEmpty
          · exact ⟨PyVal.none, by simp [PyVal.truthy, hs, pyGet, dget]⟩
          · exact ⟨dget kvs "severity",
              by rw [if_pos (by simp [PyVal.truthy, hs])]; rfl⟩
        | none => exact ⟨PyVal.none, by simp [PyVal.truthy, pyGet, dget]⟩
        | bool b =>
          rw [hd] at h2
          simp [dictOrFalsy, PyVal.truthy] at h2
          exact ⟨PyVal.none, by simp [PyVal.truthy, h2, pyGet, dget]⟩
        | num q =>
          rw [hd] at h2
          simp [dictOrFalsy, PyVal.truthy] at h2
          exact ⟨PyVal.none, by simp [PyVal.truthy, h2, pyGet, dget]⟩
        | str s =>
          rw [hd] at h2
          simp [dictOrFalsy, PyVal.truthy] at h2
          exact ⟨PyVal.none, by simp [PyVal.truthy, h2, pyGet, dget]⟩
        | list xs =>
          rw [hd] at h2
          simp [dictOrFalsy, PyVal.truthy] at h2
          exact ⟨PyVal.none, by simp [PyVal.truthy, h2, pyGet, dget]⟩
      obtain ⟨w, hw⟩ := hds
      refine ⟨if w.truthy then w else PyVal.str "UNKNOWN", ?_⟩
      simp only [sev_label]
      rw [hmc]
      simp only []
      rw [hw]
  · intro hsev hds
    simp only [sev_label, max_cvss, fallbackScores, hsev, hds]
    simp [PyVal.truthy, pyIter, pyGet, dget]

/-- C9 witness: the amended theorem applied to the empty record — no
severity information at all — which degrades to UNKNOWN without raising. -/
theorem sev_label_total_on_wellshaped_witness :
    sev_label ([] : List (String × PyVal)) = .ok (PyVal.str "UNKNOWN") := by
  exact (sev_label_total_on_wellshaped [] rfl rfl).2 rfl rfl

/-- Round-half-to-even of an integer is the integer itself. -/
theorem rhe_intCast (k : ℤ) : rhe (k : ℚ) = k := by
  simp [rhe, Int.floor_intCast]

/-- Round-half-to-even of a nonnegative rational is nonnegative. -/
theorem rhe_nonneg {x : ℚ} (hx : 0 ≤ x) : 0 ≤ rhe x := by
  have hf : (0 : ℤ) ≤ ⌊x⌋ := Int.floor_nonneg.mpr hx
  simp only [rhe]
  split_ifs <;> omega

/-- Round-half-to-even never overshoots an integer upper bound. -/
theorem rhe_le_int {x : ℚ} {m : ℤ} (hx : x ≤ m) : rhe x ≤ m := by
  have hf : ⌊x⌋ ≤ m := by
    have := Int.floor_le_floor hx
    rwa [Int.floor_intCast] at this
  rcases lt_or_eq_of_le hf with hlt | heq
  · simp only [rhe]
    split_ifs <;> omega
  · have hxm : x = (m : ℚ) := by
      refine le_antisymm hx ?_
      rw [← heq]
      exact Int.floor_le x
    rw [hxm, rhe_intCast]

/-- `round(x, 1)` is the identity on values that are already exact
multiples of one tenth. -/
theorem pyRound_one_decimal_fixed (h : ℚ) (k : ℤ) (hk : h * 10 = (k : ℚ)) :
    pyRound h 1 = h := by
  unfold pyRound
  have h1 : h * (10 : ℚ) ^ 1 = (k : ℚ) := by
    rw [pow_one]; exact hk
  rw [h1, rhe_intCast, pow_one]
  field_simp
  linarith [hk]

/-- A metric list whose weights are all naturals has a natural total. -/
theorem sum_weights_nat (ms : List Metric)
    (h : ∀ m ∈ ms, ∃ n : ℕ, m.weight = (n : ℚ)) :
    ∃ N : ℕ, score_max ms = (N : ℚ) := by
  induction ms with
  | nil => exact ⟨0, by simp [score_max]⟩
  | cons a t ih =>
    obtain ⟨n, hn⟩ := h a (List.mem_cons_self a t)
    obtain ⟨N, hN⟩ := ih (fun m hm => h m (List.mem_cons_of_mem a hm))
    refine ⟨n + N, ?_⟩
    simp only [score_max, List.map_cons, List.sum_cons] at hN ⊢
    rw [hn, hN]
    push_cast
    ring

/-- C10: for every metric list whose per-metric scores lie in `[0, weight]`
and whose weights are naturals (as in `score_one`'s construction), the
reported inverted risk percent equals exactly `100` minus the reported
health percent — the rounding to one decimal is the identity there, since
the health percent is already a multiple of one tenth — and both percents
lie in `[0, 100]`. -/
theorem risk_health_complement (ms : List Metric)
    (hb : ∀ m ∈ ms, 0 ≤ m.score ∧ m.score ≤ m.weight ∧ ∃ n : ℕ, m.weight = (n : ℚ)) :
    risk_percent ms = 100 - health_percent ms ∧
    0 ≤ health_percent ms ∧ health_percent ms ≤ 100 ∧
    0 ≤ risk_percent ms ∧ risk_percent ms ≤ 100 := by
  have hfix : ∃ k : ℤ, health_percent ms * 10 = (k : ℚ) := by
    unfold health_percent
    by_cases hz : score_max ms = 0
    · exact ⟨0, by rw [if_pos hz]; norm_num⟩
    · refine ⟨rhe (score_total_good ms / score_max ms * 100 * 10 ^ 1), ?_⟩
      rw [if_neg hz]
      unfold pyRound
      field_simp
  obtain ⟨k, hk⟩ := hfix
  have hcompl : risk_percent ms = 100 - health_percent ms := by
    unfold risk_percent
    exact pyRound_one_decimal_fixed _ (1000 - k) (by push_cast; linarith [hk])
  have hhb : 0 ≤ health_percent ms ∧ health_percent ms ≤ 100 := by
    unfold health_percent
    by_cases hz : score_max ms = 0
    · rw [if_pos hz]; norm_num
    · rw [if_neg hz]
      obtain ⟨N, hN⟩ := sum_weights_nat ms (fun m hm => (hb m hm).2.2)
      have hg0 : 0 ≤ (ms.map Metric.score).sum :=
        List.sum_nonneg (by
          intro x hx
          obtain ⟨m, hm, rfl⟩ := List.mem_map.mp hx
          exact (hb m hm).1)
      have hgM : (ms.map Metric.score).sum ≤ score_max ms :=
        List.sum_le_sum (fun m hm => (hb m hm).2.1)
      have hNpos : 0 < (N : ℚ) := by
        rcases Nat.eq_zero_or_pos N with h0 | hpos
        · exact absurd (by rw [hN, h0]; norm_num) hz
        · exact_mod_cast hpos
      have hsg0 : 0 ≤ score_total_good ms := by
        unfold score_total_good pyRound
        have h0 := rhe_nonneg (mul_nonneg hg0 (by positivity : (0:ℚ) ≤ 10 ^ 2))
        exact div_nonneg (by exact_mod_cast h0) (by positivity)
      have hsgM : score_total_good ms ≤ score_max ms := by
        unfold score_total_good pyRound
        have hle : (ms.map Metric.score).sum * 10 ^ 2 ≤ ((100 * N : ℤ) : ℚ) := by
          push_cast
          rw [hN] at hgM
          nlinarith [hgM]
        have h2 := rhe_le_int hle
        rw [hN, div_le_iff (by positivity : (0:ℚ) < 10 ^ 2)]
        calc ((rhe ((ms.map Metric.score).sum * 10 ^ 2)) : ℚ)
            ≤ ((100 * N : ℤ) : ℚ) := by exact_mod_cast h2
          _ = (N : ℚ) * 10 ^ 2 := by push_cast; ring
      have hmaxpos : 0 < score_max ms := by rw [hN]; exact hNpos
      have ht0 : 0 ≤ score_total_good ms / score_max ms * 100 :=
        mul_nonneg (div_nonneg hsg0 (le_of_lt hmaxpos)) (by norm_num)
      have ht100 : score_total_good ms / score_max ms * 100 ≤ 100 := by
        have hle1 : score_total_good ms / score_max ms ≤ 1 := by
          rw [div_le_one hmaxpos]
          exact hsgM
        nlinarith [hle1]
      constructor
      · unfold pyRound
        have h0 := rhe_nonneg (mul_nonneg ht0 (by positivity : (0:ℚ) ≤ 10 ^ 1))
        exact div_nonneg (by exact_mod_cast h0) (by positivity)
      · unfold pyRound
        have hle : score_total_good ms / score_max ms * 100 * 10 ^ 1 ≤ ((1000 : ℤ) : ℚ) := by
          push_cast
          nlinarith [ht100]
        have h2 := rhe_le_int hle
        rw [div_le_iff (by positivity : (0:ℚ) < 10 ^ 1)]
        calc ((rhe (score_total_good ms / score_max ms * 100 * 10 ^ 1)) : ℚ)
            ≤ ((1000 : ℤ) : ℚ) := by exact_mod_cast h2
          _ = 100 * 10 ^ 1 := by norm_num
  exact ⟨hcompl, hhb.1, hhb.2,
    by rw [hcompl]; linarith [hhb.2],
    by rw [hcompl]; linarith [hhb.1]⟩

/-- C10 witness: the complement theorem applied to a one-metric list with
score 5 out of weight 10 (health 50%, risk 50%). -/
theorem risk_health_complement_witness :
    risk_percent [⟨5, 10⟩] = 100 - health_percent [⟨5, 10⟩] ∧
    0 ≤ health_percent [⟨5, 10⟩] ∧ health_percent [⟨5, 10⟩] ≤ 100 ∧
    0 ≤ risk_percent [⟨5, 10⟩] ∧ risk_percent [⟨5, 10⟩] ≤ 100 := by
  exact risk_health_complement [⟨5, 10⟩] (by
    intro m hm
    simp only [List.mem_singleton] at hm
    subst hm
    exact ⟨by norm_num, by norm_num, ⟨10, by norm_num⟩⟩)

end Repochecker
